import Mathlib

/-!
Verification development for the pyspatialml block-streaming raster engine
(`pyspatialml/__main.py`).  The Python source is shallowly embedded: pure
helpers become Lean functions, the stateful `Raster` object becomes explicit
record-passing, fallible code returns `Except`, and machine floats for world
coordinates are modelled exactly with `ℚ` (only order comparisons and affine
arithmetic on them matter for the verified properties).
-/

namespace Pyspatialml

/-! ### Generic Python container primitives

Small models of the Python/`OrderedDict`/`pandas` container operations the
source relies on.  `odLookup`/`odSet`/`odPop` model `OrderedDict` access,
assignment (update-in-place for an existing key, append for a fresh one) and
`pop`; `pyIndex` models `list.index` (first occurrence); `pySetItem` models
`list[i] = v`; `noDupB` decides pairwise distinctness of a list.
-/

variable {α : Type} {β : Type}

def odLookup [DecidableEq α] : List (α × β) → α → Option β
  | [], _ => none
  | (k, v) :: rest, key => if k = key then some v else odLookup rest key

def odPop [DecidableEq α] : List (α × β) → α → List (α × β)
  | [], _ => []
  | (k, v) :: rest, key => if k = key then rest else (k, v) :: odPop rest key

def odSet [DecidableEq α] : List (α × β) → α → β → List (α × β)
  | [], key, v => [(key, v)]
  | (k, w) :: rest, key, v =>
      if k = key then (key, v) :: rest else (k, w) :: odSet rest key v

def pyIndex [DecidableEq α] : List α → α → Option Nat
  | [], _ => none
  | x :: rest, key => if x = key then some 0 else (pyIndex rest key).map (· + 1)

def pySetItem : List α → Nat → α → List α
  | [], _, _ => []
  | _ :: rest, 0, a => a :: rest
  | x :: rest, i + 1, a => x :: pySetItem rest i a

def noDupB [DecidableEq α] : List α → Bool
  | [] => true
  | x :: rest => decide (x ∉ rest) && noDupB rest

instance {ε γ : Type} [DecidableEq ε] [DecidableEq γ] : DecidableEq (Except ε γ) := fun x y =>
  match x, y with
  | .ok a, .ok b =>
      if h : a = b then .isTrue (by rw [h]) else .isFalse (fun hc => by cases hc; exact h rfl)
  | .error a, .error b =>
      if h : a = b then .isTrue (by rw [h]) else .isFalse (fun hc => by cases hc; exact h rfl)
  | .ok _, .error _ => .isFalse (fun hc => by cases hc)
  | .error _, .ok _ => .isFalse (fun hc => by cases hc)

/-! ### Dtype promotion (`Raster._maximum_dtype`)

The source walks a fixed `elif` chain of membership tests over the stack's
dtype strings; when no branch fires the local `dtype` is never assigned and
the trailing `return dtype` raises `UnboundLocalError`, modelled as `none`.
(The source repeats the `uint16` branch twice; the second test is dead code.)
-/

def maximum_dtype (dtypes : List String) : Option String :=
  if "complex128" ∈ dtypes then some "complex128"
  else if "complex64" ∈ dtypes then some "complex64"
  else if "complex" ∈ dtypes then some "complex"
  else if "float64" ∈ dtypes then some "float64"
  else if "float32" ∈ dtypes then some "float32"
  else if "int32" ∈ dtypes then some "int32"
  else if "uint32" ∈ dtypes then some "uint32"
  else if "int16" ∈ dtypes then some "int16"
  else if "uint16" ∈ dtypes then some "uint16"
  else if "bool" ∈ dtypes then some "bool"
  else none

/-- Modelled from the spec: the documented promotion rank order
complex128 > complex64 > complex > float64 > float32 > int32 > uint32 >
int16 > uint16 > bool, used to compare `maximum_dtype` against the spec's
"highest-ranked present dtype" description. -/
def rankOrder : List String :=
  ["complex128", "complex64", "complex", "float64", "float32",
   "int32", "uint32", "int16", "uint16", "bool"]

/-! ### Layer stack construction (`Raster.layers` setter)

A `RasterLayerM` records the attributes of one band handle that the setter,
the alignment checker and `write` consult: source file, dtype string, nodata
value, the owning dataset's band count (`layer.ds.count`), the band index,
pixel dimensions, the six affine coefficients and an opaque CRS id.
Layer names are `List Char` so that the character-level name cleaning of
`_make_name` stays primitive-recursive.
-/

abbrev Name := List Char

structure RasterLayerM where
  file : Name
  dtype : String
  nodata : Option ℚ
  dsCount : Nat
  bidx : Nat
  width : Nat
  height : Nat
  transform : List ℚ
  crs : Nat
deriving DecidableEq

/-- `os.path.basename`: the part of the path after the last slash. -/
def basename (s : Name) : Name :=
  (s.reverse.takeWhile (fun c => c ≠ '/')).reverse

/-- `valid_name.replace(' ', '_')`. -/
def stripSpaces (s : Name) : Name :=
  s.map (fun c => if c = ' ' then '_' else c)

/-- `if valid_name[0].isdigit(): valid_name = "x" + valid_name`.  (Python
would raise `IndexError` on an empty basename; the model returns the empty
name there.) -/
def digitPrefixed (s : Name) : Name :=
  match s with
  | [] => []
  | c :: rest => if c.isDigit then 'x' :: c :: rest else c :: rest

/-- The character class deleted by `re.sub(r'[\[\]\(\)\{\}\;]', '', ...)`. -/
def bannedChars : Name := "[]()\x7b\x7d;".toList

/-- The name-cleaning part of `Raster._make_name`: basename, strip from the
first `.` (`split(extsep)[0]`), spaces to underscores, prefix `x` when the
first character is a digit, then delete brackets, parentheses, braces and
semicolons. -/
def cleanName (file : Name) : Name :=
  (digitPrefixed (stripSpaces ((basename file).takeWhile (fun c => c ≠ '.')))).filter
    (fun c => c ∉ bannedChars)

/-- `Raster._make_name`: clean the filename and, when the cleaned name is
already present, append `_1` (once — the collision test is not repeated). -/
def make_name (existing : List Name) (file : Name) : Name :=
  let v := cleanName file
  if v ∈ existing then v ++ "_1".toList else v

/-- The naming loop of the `layers` setter: names accumulate left to right,
each produced by `_make_name` against the names so far; a layer from a
multi-band dataset additionally gets `_<bidx>` appended (after the
collision check). -/
def buildNamesAux : List Name → List RasterLayerM → List Name
  | acc, [] => acc
  | acc, l :: rest =>
      let base := make_name acc l.file
      let nm := if l.dsCount > 1 then base ++ '_' :: (toString l.bidx).toList else base
      buildNamesAux (acc ++ [nm]) rest

def buildNames (layers : List RasterLayerM) : List Name :=
  buildNamesAux [] layers

/-- `Raster._check_alignment`.  The source tests
`i['height'] == h0 or i['width'] == w0 or i['transform'] == t0` for every
member — an `or`, so a member passes when any one of the three matches —
and returns the first member's metadata on success, `False` (here `none`)
otherwise.  The CRS comparison in the source only instantiates a `Warning`
object without emitting it, so it has no observable effect and is not
modelled.  (On an empty list the source would raise `IndexError` at
`src_meta[0]`; the setter fails earlier on an empty list anyhow.) -/
def check_alignment (layers : List RasterLayerM) : Option RasterLayerM :=
  match layers with
  | [] => none
  | m0 :: _ =>
      if layers.all (fun m =>
           m.height == m0.height || m.width == m0.width || m.transform == m0.transform)
      then some m0 else none

/-- The stack-level state the `layers` setter rebuilds: per-layer lists,
grid metadata taken from the first member's metadata, and the promoted
`meta['dtype']`. -/
structure RasterM where
  names : List Name
  files : List Name
  dtypes : List String
  nodatavals : List (Option ℚ)
  count : Nat
  width : Nat
  height : Nat
  transform : List ℚ
  crs : Nat
  metaDtype : String
deriving DecidableEq

/-- The `Raster.layers` setter: alignment check (raising `ValueError` on
rejection), then per-layer names/dtypes/files, then the metadata dict whose
`dtype` entry calls `_maximum_dtype` (raising `UnboundLocalError` when no
branch of the chain fires).  Errors model the raised exceptions; an `ok`
result is the fully rebuilt stack state. -/
def layersSetter (layers : List RasterLayerM) : Except String RasterM :=
  match layers with
  | [] => .error "IndexError: layers is empty"
  | _ :: _ =>
      match check_alignment layers with
      | none =>
          .error "ValueError: Raster datasets do not all have the same dimensions or transform"
      | some m =>
          match maximum_dtype (layers.map (·.dtype)) with
          | none => .error "UnboundLocalError: local variable dtype referenced before assignment"
          | some d =>
              .ok { names := buildNames layers
                    files := layers.map (·.file)
                    dtypes := layers.map (·.dtype)
                    nodatavals := layers.map (·.nodata)
                    count := layers.length
                    width := m.width
                    height := m.height
                    transform := m.transform
                    crs := m.crs
                    metaDtype := d }

/-! ### Writing a stack to file (`Raster.write`)

With `nodata=None` the source computes `np.iinfo(dtype).min` before calling
`rasterio.open`; `np.iinfo` is defined only for integer dtypes and raises
`ValueError` otherwise, so no output dataset is opened in that case.  An
`ok` result records the opened output's dtype, nodata sentinel and band
count; an `error` result produces no output artifact by construction.
-/

def np_iinfo_min : String → Except String Int
  | "int8" => .ok (-128)
  | "int16" => .ok (-32768)
  | "int32" => .ok (-2147483648)
  | "int64" => .ok (-9223372036854775808)
  | "uint8" => .ok 0
  | "uint16" => .ok 0
  | "uint32" => .ok 0
  | "uint64" => .ok 0
  | _ => .error "ValueError: invalid integer data type"

structure WrittenRaster where
  dtype : String
  nodata : Int
  count : Nat
deriving DecidableEq

def write (r : RasterM) (dtypeArg : Option String) (nodataArg : Option Int) :
    Except String WrittenRaster :=
  let dtype := dtypeArg.getD r.metaDtype
  match nodataArg with
  | some nd => .ok ⟨dtype, nd, r.count⟩
  | none =>
      match np_iinfo_min dtype with
      | .error e => .error e
      | .ok nd => .ok ⟨dtype, nd, r.count⟩

/-! ### Point extraction (`Raster.extract_xy` / `Raster._clip_xy`)

World coordinates are exact rationals.  `clip_xy` is the `np.where` filter
with strict inequalities against the bounding box; `rowcolQ` is
`rasterio.transform.rowcol` for a rectilinear transform (b = d = 0), which
floors the inverse affine map; `extract_xy` then reads a one-pixel window
per retained point.  The source returns the value rows index-aligned with
the retained coordinates; the model keeps the pairing explicit.
-/

structure BoundsQ where
  left : ℚ
  bottom : ℚ
  right : ℚ
  top : ℚ
deriving DecidableEq

structure AffineQ where
  a : ℚ
  c : ℚ
  e : ℚ
  f : ℚ
deriving DecidableEq

def rowcolQ (t : AffineQ) (x y : ℚ) : Int × Int :=
  (⌊(y - t.f) / t.e⌋, ⌊(x - t.c) / t.a⌋)

def clip_xy (b : BoundsQ) (xy : List (ℚ × ℚ)) : List (ℚ × ℚ) :=
  xy.filter (fun p =>
    decide (b.left < p.1) && decide (p.1 < b.right) &&
    decide (b.bottom < p.2) && decide (p.2 < b.top))

def extract_xy (t : AffineQ) (b : BoundsQ) (read1 : Int → Int → List (Option ℚ))
    (xy : List (ℚ × ℚ)) : List ((ℚ × ℚ) × List (Option ℚ)) :=
  (clip_xy b xy).map (fun p =>
    (p, read1 (rowcolQ t p.1 p.2).1 (rowcolQ t p.1 p.2).2))

/-! ### Duplicate-pixel resolution in `Raster.extract_vector` (point path)

After clipping and `rowcol` conversion the source handles
`duplicates != 'keep'` by building
`pd.DataFrame(np.column_stack((rows, cols, y)), columns=['row','col'] + field)`.
`field` is documented and used as a `str`, and Python's `list.__add__`
raises `TypeError` for a non-list right operand; `pyListAdd` models that
operator on the union of the two runtime types involved.  The rest of the
branch (reachable only for a list-valued `field`) is modelled faithfully:
a `Duplicated` flag column (`pandas` `.duplicated()`: `True` for every
occurrence after the first), then `groupby(['Duplicated','row','col'],
sort=False)` with mean/min/max aggregation over the label column, groups
ordered by first appearance.
-/

inductive PyStrList where
  | pystr : String → PyStrList
  | pylist : List String → PyStrList
deriving DecidableEq

def pyListAdd (xs : List String) : PyStrList → Except String (List String)
  | .pystr _ => .error "TypeError: can only concatenate list (not str) to list"
  | .pylist l => .ok (xs ++ l)

def pdDuplicatedAux [DecidableEq α] (seen : List α) : List α → List Bool
  | [] => []
  | p :: rest => decide (p ∈ seen) :: pdDuplicatedAux (p :: seen) rest

def uniqueKeysAux [DecidableEq α] (seen : List α) : List α → List α
  | [] => []
  | k :: rest =>
      if k ∈ seen then uniqueKeysAux seen rest
      else k :: uniqueKeysAux (k :: seen) rest

def aggAt [DecidableEq α] (agg : List ℚ → ℚ) (keys : List α) (vals : List ℚ) (k : α) : ℚ :=
  agg ((keys.zip vals).filterMap (fun p => if p.1 = k then some p.2 else none))

def groupbyAgg [DecidableEq α] (agg : List ℚ → ℚ) (keys : List α) (vals : List ℚ) :
    List (α × ℚ) :=
  (uniqueKeysAux [] keys).map (fun k => (k, aggAt agg keys vals k))

def qMean (l : List ℚ) : ℚ := l.sum / l.length

def qMin : List ℚ → ℚ
  | [] => 0
  | x :: rest => rest.foldl min x

def qMax : List ℚ → ℚ
  | [] => 0
  | x :: rest => rest.foldl max x

/-- The `duplicates` handling of `extract_vector` on point geometries:
validation of the mode, the `keep` short-circuit, and otherwise the
DataFrame construction (whose column list concatenation fails for a `str`
field) followed by the flagged groupby aggregation. -/
def extract_vector_dedup (duplicates : String) (field : PyStrList)
    (rows cols : List Int) (y : List ℚ) :
    Except String (List Int × List Int × List ℚ) :=
  if duplicates ∉ ["keep", "mean", "min", "max"] then
    .error "ValueError: duplicates must be one of keep mean min max"
  else if duplicates = "keep" then .ok (rows, cols, y)
  else
    match pyListAdd ["row", "col"] field with
    | .error e => .error e
    | .ok _ =>
        let pairs := rows.zip cols
        let flags := pdDuplicatedAux [] pairs
        let keys := (flags.zip pairs).map (fun q => (q.1, q.2.1, q.2.2))
        let agg := if duplicates = "mean" then qMean
                   else if duplicates = "min" then qMin else qMax
        let grouped := groupbyAgg agg keys y
        .ok (grouped.map (fun g => g.1.2.1),
             grouped.map (fun g => g.1.2.2),
             grouped.map (·.2))

/-! ### Probability prediction (`Raster.predict` with `predict_type='prob'`)

A masked window read is a band-major grid of values plus a mask.  `_probfun`
flattens it band-last (`transpose(1,2,0).reshape(samples, features)` — a
sample index `s` addresses pixel `(s / ncols, s % ncols)`), applies
`predict_proba` row-wise, reshapes `(samples, classes)` to
`(rows, cols, classes)` and transposes to `(classes, rows, cols)`
(row-major, so class `j` of pixel `(r, c)` is entry `j` of sample
`r * ncols + c`), and repeats the any-band mask `img.mask.any(axis=0)` over
every class band.  `predict_proba` is the external estimator, modelled as a
per-sample function on the underlying data.  `predictProbIndexes` is the
`indexes` normalisation in `predict`: an `int` becomes
`range(i, i + 1)`, `None` triggers the one-row probe
(`Window(0, 0, width, 1)`) whose probability matrix's column count
(`np.arange(0, result.shape[1])`) gives all classes, and a list passes
through.
-/

structure MaskedStack where
  nbands : Nat
  nrows : Nat
  ncols : Nat
  data : Nat → Nat → Nat → ℚ
  mask : Nat → Nat → Nat → Bool

def flatFeatures (img : MaskedStack) (s : Nat) : List ℚ :=
  (List.range img.nbands).map (fun b => img.data b (s / img.ncols) (s % img.ncols))

def mask2d (img : MaskedStack) (r c : Nat) : Bool :=
  (List.range img.nbands).any (fun b => img.mask b r c)

def probaMatrix (proba : List ℚ → List ℚ) (img : MaskedStack) : List (List ℚ) :=
  (List.range (img.nrows * img.ncols)).map (fun s => proba (flatFeatures img s))

def probaClassCount (proba : List ℚ → List ℚ) (img : MaskedStack) : Nat :=
  ((probaMatrix proba img).headD []).length

def probfun (img : MaskedStack) (proba : List ℚ → List ℚ) : MaskedStack where
  nbands := probaClassCount proba img
  nrows := img.nrows
  ncols := img.ncols
  data := fun j r c => ((probaMatrix proba img).getD (r * img.ncols + c) []).getD j 0
  mask := fun _ r c => mask2d img r c

def probeWindow (img : MaskedStack) : MaskedStack :=
  { img with nrows := 1 }

def predictProbIndexes (img : MaskedStack) (proba : List ℚ → List ℚ) :
    Option (Nat ⊕ List Nat) → List Nat
  | some (.inl i) => List.range' i 1
  | some (.inr l) => l
  | none => List.range (probaClassCount proba (probeWindow img))

/-! ### Random sampling (`BaseRaster.sample`, non-stratified branch)

The loop draws `n` uniformly random `(col, row)` pairs (the random stream is
an explicit `rng : Nat → Nat × Nat` consumed through a cursor), marks them
in a full-grid marker array and recovers the marked positions with
`np.nonzero` — which both deduplicates the draws and enumerates positions in
row-major order — extracts pixel values at the marked positions, drops rows
with any masked band (`valid : col → row → Bool` says whether a pixel's
bands are all valid; pixel centers always survive the strict bounds clip of
`extract_xy`), accumulates, and repeats with `n = size - len(valid_samples)`
until at least `size` rows are collected.  The Python loop has no bound;
`fuel` bounds the recursion and `none` reports exhaustion.  The result is
the accumulated row count together with the number of draw iterations.
-/

structure SampleGrid where
  width : Nat
  height : Nat
  valid : Nat → Nat → Bool

def drawPairs (rng : Nat → Nat × Nat) (start n : Nat) : List (Nat × Nat) :=
  (List.range n).map (fun i => rng (start + i))

def allPositions (g : SampleGrid) : List (Nat × Nat) :=
  (List.range g.height).flatMap (fun r => (List.range g.width).map (fun c => (c, r)))

def memFilter [DecidableEq α] (d l : List α) : List α :=
  l.filter (fun x => decide (x ∈ d))

def markedValid (g : SampleGrid) (draws : List (Nat × Nat)) : Nat :=
  ((memFilter draws (allPositions g)).filter (fun p => g.valid p.1 p.2)).length

def sampleLoop (g : SampleGrid) (rng : Nat → Nat × Nat) (size : Nat) :
    Nat → Nat → Nat → Nat → Option (Nat × Nat)
  | 0, _, _, _ => none
  | fuel + 1, cursor, acc, iters =>
      let n := size - acc
      let got := markedValid g (drawPairs rng cursor n)
      if size ≤ acc + got then some (acc + got, iters + 1)
      else sampleLoop g rng size fuel (cursor + n) (acc + got) (iters + 1)

def sampleRun (g : SampleGrid) (rng : Nat → Nat × Nat) (size fuel : Nat) :
    Option (Nat × Nat) :=
  sampleLoop g rng size fuel 0 0 0

/-! ### Renaming (`Raster.rename`)

The stack's naming state is the `names` list, the fixed `iloc` layer list
(layer handles are opaque `Nat` ids) and the `loc` `OrderedDict`.  One
mapping item does `layer = loc[old]` (KeyError when absent),
`idx = names.index(old)` (ValueError when absent, first occurrence),
`names[idx] = new`, and `loc[new] = loc.pop(old)` — pop first, then an
`OrderedDict` assignment that overwrites in place when `new` already has an
entry.  The per-layer instance attributes (`setattr`/`delattr`) are not
modelled; the claims concern `loc`.  Items are applied sequentially in the
mapping's iteration order.
-/

structure StackNames where
  names : List Name
  layers : List Nat
  loc : List (Name × Nat)
deriving DecidableEq

def renameStep (st : StackNames) (old new : Name) : Except String StackNames :=
  match odLookup st.loc old with
  | none => .error "KeyError"
  | some layer =>
      match pyIndex st.names old with
      | none => .error "ValueError: x not in list"
      | some idx =>
          .ok ⟨pySetItem st.names idx new, st.layers,
               odSet (odPop st.loc old) new layer⟩

def rename (st : StackNames) : List (Name × Name) → Except String StackNames
  | [] => .ok st
  | (o, n) :: rest =>
      match renameStep st o n with
      | .ok st' => rename st' rest
      | .error e => .error e

/-- Consistency of the name-to-handle lookup: `names` and `layers` have the
same length and `loc` maps the i-th name to the i-th layer handle. -/
def consistentB : List Name → List Nat → List (Name × Nat) → Bool
  | [], [], _ => true
  | nm :: ns, ly :: ls, loc => (odLookup loc nm == some ly) && consistentB ns ls loc
  | _, _, _ => false

def consistentNamingB (st : StackNames) : Bool :=
  consistentB st.names st.layers st.loc

/-- The side conditions under which the amended rename claim is proved: at
each step the old name is present and the new name does not collide with any
name still present (or the pair is the identity). -/
def renameOK (st : StackNames) : List (Name × Name) → Bool
  | [] => true
  | (o, n) :: rest =>
      decide (o ∈ st.names) && (decide (n = o) || decide (n ∉ st.names)) &&
      (match renameStep st o n with
       | .ok st' => renameOK st' rest
       | .error _ => false)

/-! ### Naming effect of `Raster.append` and `Raster.drop`

`append` runs `self.layers += new_raster.layers` through the `layers`
setter — regenerating all names with `_make_name` and rebuilding `loc` in
order — and then `rename`s the regenerated names back to
`existing_names + other_names` (the dict comprehension
`{reset_names[i]: newname}` is modelled as the positional zip; the two
lists always have equal length, and for the inputs considered here the
regenerated names are distinct so dict key collapsing does not arise).
`drop` with positional labels rebuilds `self.names` as the comprehension
`[v for (i, v) in enumerate(self.names) if i not in labels]`. -/

def layerA : RasterLayerM := ⟨"a.tif".toList, "int16", none, 1, 1, 10, 10, [1, 0, 0, 0, -1, 10], 1⟩

/-- Same grid as `layerA` except for the width (20 instead of 10). -/
def layerB : RasterLayerM := ⟨"b.tif".toList, "int16", none, 1, 1, 20, 10, [1, 0, 0, 0, -1, 10], 1⟩

def layerUint8 : RasterLayerM := ⟨"a.tif".toList, "uint8", none, 1, 1, 10, 10, [1, 0, 0, 0, -1, 10], 1⟩

def rasterFloat : RasterM := ⟨[], [], ["float32"], [none], 1, 10, 10, [1, 0, 0, 0, -1, 10], 1, "float32"⟩

def affW : AffineQ := ⟨1, 0, -1, 2⟩

def bndW : BoundsQ := ⟨0, 0, 2, 2⟩

def readW : Int → Int → List (Option ℚ) := fun _ _ => [some 1]

def imgW : MaskedStack := ⟨1, 1, 1, fun _ _ _ => 0, fun _ _ _ => true⟩

def probaW : List ℚ → List ℚ := fun _ => [1/2, 1/2]

/-- A 1-by-1 grid with no no-data pixels. -/
def gridOne : SampleGrid := ⟨1, 1, fun _ _ => true⟩

/-- The random stream on a 1-by-1 grid: every draw is pixel `(0, 0)`. -/
def rngConst : Nat → Nat × Nat := fun _ => (0, 0)

/-- A 2-by-1 grid with no no-data pixels. -/
def gridW : SampleGrid := ⟨2, 1, fun _ _ => true⟩

/-- A random stream whose first two draws are the distinct pixels
`(0, 0)` and `(1, 0)`. -/
def rngW : Nat → Nat × Nat := fun i => (i % 2, 0)

/-- A stack with layers named `a` and `b` bound to handles 0 and 1. -/
def stAB : StackNames :=
  ⟨["a".toList, "b".toList], [0, 1], [("a".toList, 0), ("b".toList, 1)]⟩

/-! ## Theorems -/

/-- `maximum_dtype` agrees with the spec's description: the first (hence
highest-ranked) entry of the documented rank order present among the
member dtypes, and nothing otherwise. -/
theorem maximum_dtype_eq_find (l : List String) :
    maximum_dtype l = rankOrder.find? (fun d => decide (d ∈ l)) := by
  simp only [rankOrder]
  by_cases h1 : "complex128" ∈ l
  · rw [List.find?_cons_of_pos _ (by simpa using h1)]; simp [maximum_dtype, h1]
  rw [List.find?_cons_of_neg _ (by simpa using h1)]
  by_cases h2 : "complex64" ∈ l
  · rw [List.find?_cons_of_pos _ (by simpa using h2)]; simp [maximum_dtype, h1, h2]
  rw [List.find?_cons_of_neg _ (by simpa using h2)]
  by_cases h3 : "complex" ∈ l
  · rw [List.find?_cons_of_pos _ (by simpa using h3)]; simp [maximum_dtype, h1, h2, h3]
  rw [List.find?_cons_of_neg _ (by simpa using h3)]
  by_cases h4 : "float64" ∈ l
  · rw [List.find?_cons_of_pos _ (by simpa using h4)]; simp [maximum_dtype, h1, h2, h3, h4]
  rw [List.find?_cons_of_neg _ (by simpa using h4)]
  by_cases h5 : "float32" ∈ l
  · rw [List.find?_cons_of_pos _ (by simpa using h5)]; simp [maximum_dtype, h1, h2, h3, h4, h5]
  rw [List.find?_cons_of_neg _ (by simpa using h5)]
  by_cases h6 : "int32" ∈ l
  · rw [List.find?_cons_of_pos _ (by simpa using h6)]
    simp [maximum_dtype, h1, h2, h3, h4, h5, h6]
  rw [List.find?_cons_of_neg _ (by simpa using h6)]
  by_cases h7 : "uint32" ∈ l
  · rw [List.find?_cons_of_pos _ (by simpa using h7)]
    simp [maximum_dtype, h1, h2, h3, h4, h5, h6, h7]
  rw [List.find?_cons_of_neg _ (by simpa using h7)]
  by_cases h8 : "int16" ∈ l
  · rw [List.find?_cons_of_pos _ (by simpa using h8)]
    simp [maximum_dtype, h1, h2, h3, h4, h5, h6, h7, h8]
  rw [List.find?_cons_of_neg _ (by simpa using h8)]
  by_cases h9 : "uint16" ∈ l
  · rw [List.find?_cons_of_pos _ (by simpa using h9)]
    simp [maximum_dtype, h1, h2, h3, h4, h5, h6, h7, h8, h9]
  rw [List.find?_cons_of_neg _ (by simpa using h9)]
  by_cases h10 : "bool" ∈ l
  · rw [List.find?_cons_of_pos _ (by simpa using h10)]
    simp [maximum_dtype, h1, h2, h3, h4, h5, h6, h7, h8, h9, h10]
  rw [List.find?_cons_of_neg _ (by simpa using h10)]
  simp [maximum_dtype, h1, h2, h3, h4, h5, h6, h7, h8, h9, h10]

/-- C3: dtype promotion is permutation-invariant (it only tests membership),
it returns the highest-ranked dtype present according to the documented
rank order, and the two documented examples hold:
`["int16","float32"] → "float32"` and `["uint16","int16"] → "int16"`. -/
theorem maximum_dtype_perm_rank_examples (l1 l2 : List String) (h : l1.Perm l2) :
    maximum_dtype l1 = maximum_dtype l2 ∧
    (∀ l : List String, maximum_dtype l = rankOrder.find? (fun d => decide (d ∈ l))) ∧
    maximum_dtype ["int16", "float32"] = some "float32" ∧
    maximum_dtype ["uint16", "int16"] = some "int16" := by
  refine ⟨?_, maximum_dtype_eq_find, by decide, by decide⟩
  rw [maximum_dtype_eq_find l1, maximum_dtype_eq_find l2]
  have hp : (fun d : String => decide (d ∈ l1)) = (fun d => decide (d ∈ l2)) :=
    funext fun d => decide_eq_decide.mpr h.mem_iff
  rw [hp]

/-- Witness for C3: the permutation clause applied at the two documented
example lists. -/
theorem maximum_dtype_perm_witness :
    maximum_dtype ["int16", "float32"] = maximum_dtype ["float32", "int16"] :=
  (maximum_dtype_perm_rank_examples ["int16", "float32"] ["float32", "int16"] (by decide)).1

/-- C9: when no member dtype appears in the promotion chain's name list,
`_maximum_dtype` assigns nothing (the chain falls through, so the Python
`return dtype` raises `UnboundLocalError`), and stack construction, which
computes `meta['dtype']` from it, never succeeds on such layers. -/
theorem unranked_dtypes_fail_construction (layers : List RasterLayerM)
    (h : ∀ l ∈ layers, l.dtype ∉ rankOrder) :
    maximum_dtype (layers.map (·.dtype)) = none ∧
    ∀ r, layersSetter layers ≠ Except.ok r := by
  have hmem : ∀ s ∈ rankOrder, s ∉ layers.map (·.dtype) := by
    intro s hs hcon
    obtain ⟨l, hl, he⟩ := List.mem_map.mp hcon
    exact h l hl (he ▸ hs)
  have hnone : maximum_dtype (layers.map (·.dtype)) = none := by
    unfold maximum_dtype
    rw [if_neg (hmem "complex128" (by decide)), if_neg (hmem "complex64" (by decide)),
        if_neg (hmem "complex" (by decide)), if_neg (hmem "float64" (by decide)),
        if_neg (hmem "float32" (by decide)), if_neg (hmem "int32" (by decide)),
        if_neg (hmem "uint32" (by decide)), if_neg (hmem "int16" (by decide)),
        if_neg (hmem "uint16" (by decide)), if_neg (hmem "bool" (by decide))]
  refine ⟨hnone, ?_⟩
  intro r hok
  cases layers with
  | nil => simp [layersSetter] at hok
  | cons l0 rest =>
      cases hca : check_alignment (l0 :: rest) with
      | none =>
          simp only [layersSetter, hca] at hok
          exact Except.noConfusion hok
      | some m =>
          simp only [layersSetter, hca, hnone] at hok
          exact Except.noConfusion hok

/-- Witness for C9: a single `uint8` band (a dtype absent from the chain). -/
theorem unranked_dtypes_witness :
    maximum_dtype ([layerUint8].map (·.dtype)) = none ∧
    ∀ r, layersSetter [layerUint8] ≠ Except.ok r :=
  unranked_dtypes_fail_construction [layerUint8] (by decide)

/-- C10: for a stack whose promoted dtype is a floating-point or complex
type, `write` with the default `nodata=None` fails at the
`np.iinfo(dtype).min` computation (defined only for integer dtypes) before
any output dataset is opened, so no output artifact is produced. -/
theorem write_default_nodata_nonint_raises (r : RasterM)
    (h : r.metaDtype ∈ ["float32", "float64", "complex", "complex64", "complex128"]) :
    ∃ e, write r none none = Except.error e := by
  have hi : np_iinfo_min r.metaDtype = Except.error "ValueError: invalid integer data type" := by
    simp only [List.mem_cons, List.not_mem_nil, or_false] at h
    rcases h with h | h | h | h | h <;> rw [h] <;> rfl
  refine ⟨"ValueError: invalid integer data type", ?_⟩
  simp only [write, Option.getD_none, hi]

/-- Witness for C10: a stack with promoted dtype `float32`. -/
theorem write_default_nodata_witness :
    ∃ e, write rasterFloat none none = Except.error e :=
  write_default_nodata_nonint_raises rasterFloat (by decide)

/-- C1 (failing input): `layerB` differs from `layerA` only in width (same
height, transform and CRS), yet `_check_alignment` — which combines the
height, width and transform comparisons with `or` instead of `and` —
accepts the pair and stack construction succeeds, where the claim (and the
checker's own docstring and error message) requires a validation failure. -/
theorem alignment_partial_mismatch_accepted :
    layerB.width ≠ layerA.width ∧ layerB.height = layerA.height ∧
    layerB.transform = layerA.transform ∧ layerB.crs = layerA.crs ∧
    ∃ r, layersSetter [layerA, layerB] = Except.ok r :=
  ⟨by decide, by decide, by decide, by decide, ⟨_, rfl⟩⟩

/-- C2 (failing input): on two points that fall in the same pixel with
labels 2 and 4 and `duplicates='mean'`, the dedup branch raises `TypeError`
at `pd.DataFrame(..., columns=['row','col'] + field)` (a Python list cannot
be concatenated with the `str` field), instead of producing one sample with
label 3; and even with a list-valued field the groupby keys include the
`Duplicated` flag, which separates the first occurrence from later ones, so
the two labels still do not merge. -/
theorem extract_vector_duplicates_mean_raises :
    extract_vector_dedup "mean" (.pystr "label") [0, 0] [0, 0] [2, 4] =
      Except.error "TypeError: can only concatenate list (not str) to list" ∧
    extract_vector_dedup "mean" (.pylist ["label"]) [0, 0] [0, 0] [2, 4] =
      Except.ok ([0, 0], [0, 0], [2, 4]) := by
  refine ⟨rfl, ?_⟩
  norm_num [extract_vector_dedup, pyListAdd, pdDuplicatedAux, uniqueKeysAux, groupbyAgg, aggAt,
    qMean, List.filterMap_cons, List.filterMap_nil, List.sum_cons, List.sum_nil]

/-- C6: `extract_xy` yields samples only for coordinates strictly inside
the stack's bounding box, and a point lying exactly on any of the four
edges is discarded and never produces a sample. -/
theorem extract_xy_strict_bounds (t : AffineQ) (b : BoundsQ)
    (read1 : Int → Int → List (Option ℚ)) (xy : List (ℚ × ℚ)) :
    (∀ p vals, (p, vals) ∈ extract_xy t b read1 xy →
        b.left < p.1 ∧ p.1 < b.right ∧ b.bottom < p.2 ∧ p.2 < b.top) ∧
    (∀ p, p ∈ xy →
        p.1 = b.left ∨ p.1 = b.right ∨ p.2 = b.bottom ∨ p.2 = b.top →
        ∀ vals, (p, vals) ∉ extract_xy t b read1 xy) := by
  have hclip : ∀ p ∈ clip_xy b xy,
      b.left < p.1 ∧ p.1 < b.right ∧ b.bottom < p.2 ∧ p.2 < b.top := by
    intro p hp
    have hc := (List.mem_filter.mp hp).2
    simp only [Bool.and_eq_true, decide_eq_true_eq] at hc
    exact ⟨hc.1.1.1, hc.1.1.2, hc.1.2, hc.2⟩
  constructor
  · intro p vals hmem
    obtain ⟨q, hq, he⟩ := List.mem_map.mp hmem
    injection he with h1 h2
    subst h1
    exact hclip q hq
  · intro p hpxy hedge vals hmem
    obtain ⟨q, hq, he⟩ := List.mem_map.mp hmem
    injection he with h1 h2
    subst h1
    have h4 := hclip q hq
    rcases hedge with h | h | h | h
    · rw [h] at h4; exact lt_irrefl _ h4.1
    · rw [h] at h4; exact lt_irrefl _ h4.2.1
    · rw [h] at h4; exact lt_irrefl _ h4.2.2.1
    · rw [h] at h4; exact lt_irrefl _ h4.2.2.2

/-- Witness for C6: the point `(0, 1)` lies exactly on the left edge of the
bounds `(0, 0, 2, 2)` and yields no sample. -/
theorem extract_xy_strict_bounds_witness :
    (((0 : ℚ), (1 : ℚ)), ([] : List (Option ℚ))) ∉
      extract_xy affW bndW readW [((0 : ℚ), (1 : ℚ))] :=
  (extract_xy_strict_bounds affW bndW readW [((0 : ℚ), (1 : ℚ))]).2
    (0, 1) (by simp) (Or.inl rfl) []

/-- C4: for probability prediction, the number of output class bands equals
the estimator's class count (obtained from the one-row probe window) when
`indexes=None`, equals `len(indexes)` for a list, and equals 1 for a single
integer index (`range(i, i+1)`); and `_probfun` masks every class band of
every pixel at which any input band is masked. -/
theorem predict_prob_band_count_and_mask (img : MaskedStack) (proba : List ℚ → List ℚ)
    (k : Nat) (hg : ∀ x, (proba x).length = k) (hw : 0 < img.ncols) :
    (predictProbIndexes img proba none).length = k ∧
    (∀ l, (predictProbIndexes img proba (some (Sum.inr l))).length = l.length) ∧
    (∀ i, (predictProbIndexes img proba (some (Sum.inl i))).length = 1) ∧
    (∀ j r c, mask2d img r c = true → (probfun img proba).mask j r c = true) := by
  refine ⟨?_, fun l => rfl, fun i => by simp [predictProbIndexes],
    fun j r c hm => hm⟩
  simp only [predictProbIndexes, List.length_range]
  unfold probaClassCount probaMatrix
  obtain ⟨m, hm⟩ : ∃ m, img.ncols = m + 1 := ⟨img.ncols - 1, by omega⟩
  simp only [probeWindow]
  rw [one_mul, hm, List.range_succ_eq_map]
  simp [hg]

/-- Witness for C4: a one-band one-pixel window and a two-class estimator. -/
theorem predict_prob_witness :
    (predictProbIndexes imgW probaW none).length = 2 ∧
    (predictProbIndexes imgW probaW (some (Sum.inr [0]))).length = 1 ∧
    (predictProbIndexes imgW probaW (some (Sum.inl 0))).length = 1 ∧
    (probfun imgW probaW).mask 0 0 0 = true := by
  have h := predict_prob_band_count_and_mask imgW probaW 2 (fun x => rfl) (by decide)
  exact ⟨h.1, h.2.1 [0], h.2.2.1 0, h.2.2.2 0 0 0 (by decide)⟩

/-- Counting lemma: filtering a duplicate-free list by membership in a
duplicate-free sublist keeps exactly as many elements as that sublist has. -/
theorem filter_mem_length {γ : Type} [DecidableEq γ] :
    ∀ (l d : List γ), l.Nodup → d.Nodup → (∀ x ∈ d, x ∈ l) →
      (memFilter d l).length = d.length := by
  unfold memFilter
  intro l
  induction l with
  | nil =>
      intro d _ _ hsub
      cases d with
      | nil => simp
      | cons a d' => exact absurd (hsub a (by simp)) (by simp)
  | cons x l' ih =>
      intro d hl hd hsub
      have hnd := List.nodup_cons.mp hl
      rw [List.filter_cons]
      by_cases hx : x ∈ d
      · rw [if_pos (by simpa using hx)]
        have step : l'.filter (fun y => decide (y ∈ d)) =
            l'.filter (fun y => decide (y ∈ d.erase x)) := by
          apply List.filter_congr
          intro y hy
          have hyx : y ≠ x := fun he => hnd.1 (he ▸ hy)
          apply decide_eq_decide.mpr
          rw [hd.mem_erase_iff]
          exact ⟨fun hyd => ⟨hyx, hyd⟩, fun hh => hh.2⟩
        have hsub' : ∀ y ∈ d.erase x, y ∈ l' := by
          intro y hy
          have hy' := (hd.mem_erase_iff).mp hy
          rcases List.mem_cons.mp (hsub y hy'.2) with he | hm
          · exact absurd he hy'.1
          · exact hm
        have hpos : 0 < d.length := List.length_pos.mpr (List.ne_nil_of_mem hx)
        rw [List.length_cons, step, ih (d.erase x) hnd.2 (hd.erase x) hsub',
            List.length_erase_of_mem hx]
        omega
      · rw [if_neg (by simpa using hx)]
        apply ih d hnd.2 hd
        intro y hy
        rcases List.mem_cons.mp (hsub y hy) with he | hm
        · exact absurd (he ▸ hy) hx
        · exact hm

/-- The row-major enumeration of grid positions has no duplicates. -/
theorem allPositions_nodup (g : SampleGrid) : (allPositions g).Nodup := by
  unfold allPositions
  have : ∀ rows : List Nat, rows.Nodup →
      (rows.flatMap (fun r => (List.range g.width).map (fun c => (c, r)))).Nodup := by
    intro rows
    induction rows with
    | nil => simp
    | cons r rs ih =>
        intro h
        have hh := List.nodup_cons.mp h
        rw [List.flatMap_cons]
        apply List.Nodup.append
        · exact (List.nodup_range _).map (fun a b hab => congrArg Prod.fst hab)
        · exact ih hh.2
        · intro p hp hq
          obtain ⟨c, _, rfl⟩ := List.mem_map.mp hp
          obtain ⟨r', hr', hp'⟩ := List.mem_flatMap.mp hq
          obtain ⟨c', _, he⟩ := List.mem_map.mp hp'
          have : r' = r := congrArg Prod.snd he
          exact hh.1 (this ▸ hr')
  exact this _ (List.nodup_range _)

theorem mem_allPositions (g : SampleGrid) (x y : Nat) (hx : x < g.width)
    (hy : y < g.height) : (x, y) ∈ allPositions g := by
  unfold allPositions
  exact List.mem_flatMap.mpr
    ⟨y, List.mem_range.mpr hy, List.mem_map.mpr ⟨x, List.mem_range.mpr hx, rfl⟩⟩

/-- On an all-valid grid, one iteration keeps exactly the distinct in-range
draws: the marker array deduplicates, nothing is dropped as no-data. -/
theorem markedValid_eq_length (g : SampleGrid) (draws : List (Nat × Nat))
    (hvalid : ∀ x y, g.valid x y = true) (hnd : draws.Nodup)
    (hsub : ∀ p ∈ draws, p.1 < g.width ∧ p.2 < g.height) :
    markedValid g draws = draws.length := by
  unfold markedValid
  rw [List.filter_eq_self.mpr (fun p _ => hvalid p.1 p.2)]
  exact filter_mem_length (allPositions g) draws (allPositions_nodup g) hnd
    (fun p hp => mem_allPositions g p.1 p.2 (hsub p hp).1 (hsub p hp).2)

/-- C5 (counterexample): on a 1-by-1 raster with zero no-data pixels, all 50
random draws of the first iteration collapse to the single pixel after the
marker-array deduplication, so the loop needs 50 draw iterations — not one —
before it accumulates the requested 50 rows. -/
theorem sample_fifty_needs_many_iterations :
    (∀ x y, gridOne.valid x y = true) ∧
    sampleRun gridOne rngConst 50 100 = some (50, 50) ∧ (50 : Nat) ≠ 1 :=
  ⟨fun _ _ => rfl, by decide, by decide⟩

/-- C5 (amended): with zero no-data pixels the sampling loop terminates
after exactly one draw iteration with exactly `size` rows provided the
`size` drawn (row, col) pairs are pairwise distinct; duplicate draws are
collapsed by the marker array and force further iterations. -/
theorem sample_single_iteration_of_distinct_draws (g : SampleGrid)
    (rng : Nat → Nat × Nat) (size fuel : Nat) (hfuel : 0 < fuel)
    (hvalid : ∀ x y, g.valid x y = true)
    (hrange : ∀ i, i < size → (rng i).1 < g.width ∧ (rng i).2 < g.height)
    (hnd : (drawPairs rng 0 size).Nodup) :
    sampleRun g rng size fuel = some (size, 1) := by
  obtain ⟨f, rfl⟩ : ∃ f, fuel = f + 1 := ⟨fuel - 1, by omega⟩
  have hlen : (drawPairs rng 0 size).length = size := by simp [drawPairs]
  have hsub : ∀ p ∈ drawPairs rng 0 size, p.1 < g.width ∧ p.2 < g.height := by
    intro p hp
    obtain ⟨i, hi, rfl⟩ := List.mem_map.mp hp
    rw [Nat.zero_add]
    exact hrange i (List.mem_range.mp hi)
  have hmv := markedValid_eq_length g (drawPairs rng 0 size) hvalid hnd hsub
  show sampleLoop g rng size (f + 1) 0 0 0 = some (size, 1)
  rw [sampleLoop]
  simp only [Nat.sub_zero, Nat.zero_add, hmv, hlen, le_refl, if_true]

/-- Witness for C5 (amended): two distinct draws on a 2-by-1 all-valid grid
finish in a single iteration with exactly two rows. -/
theorem sample_single_iteration_witness :
    sampleRun gridW rngW 2 1 = some (2, 1) :=
  sample_single_iteration_of_distinct_draws gridW rngW 2 1 (by decide)
    (fun _ _ => rfl)
    (fun i _ => ⟨Nat.mod_lt i (by decide), Nat.zero_lt_one⟩)
    (by decide)

theorem odLookup_odSet_self {γ δ : Type} [DecidableEq γ] (l : List (γ × δ)) (k : γ) (v : δ) :
    odLookup (odSet l k v) k = some v := by
  induction l with
  | nil => simp [odSet, odLookup]
  | cons kv rest ih =>
      obtain ⟨k0, v0⟩ := kv
      by_cases h : k0 = k
      · simp [odSet, h, odLookup]
      · simp [odSet, h, odLookup, ih]

theorem odLookup_odSet_ne {γ δ : Type} [DecidableEq γ] (l : List (γ × δ)) (k k' : γ) (v : δ)
    (h : k' ≠ k) : odLookup (odSet l k v) k' = odLookup l k' := by
  induction l with
  | nil => simp [odSet, odLookup, Ne.symm h]
  | cons kv rest ih =>
      obtain ⟨k0, v0⟩ := kv
      by_cases hk : k0 = k
      · subst hk
        simp [odSet, odLookup, Ne.symm h]
      · simp [odSet, odLookup, hk, ih]

theorem odLookup_odPop_ne {γ δ : Type} [DecidableEq γ] (l : List (γ × δ)) (k k' : γ)
    (h : k' ≠ k) : odLookup (odPop l k) k' = odLookup l k' := by
  induction l with
  | nil => rfl
  | cons kv rest ih =>
      obtain ⟨k0, v0⟩ := kv
      by_cases hk : k0 = k
      · subst hk
        simp [odPop, odLookup, Ne.symm h]
      · simp [odPop, odLookup, hk, ih]

theorem pyIndex_get? {γ : Type} [DecidableEq γ] (l : List γ) (key : γ) :
    ∀ i, pyIndex l key = some i → l.get? i = some key := by
  induction l with
  | nil => intro i h; simp [pyIndex] at h
  | cons x rest ih =>
      intro i h
      by_cases hx : x = key
      · simp [pyIndex, hx] at h
        subst h
        simp [hx]
      · simp only [pyIndex, if_neg hx] at h
        obtain ⟨j, hj, hji⟩ := Option.map_eq_some'.mp h
        subst hji
        simpa using ih j hj

theorem pyIndex_isSome_of_mem {γ : Type} [DecidableEq γ] (l : List γ) (key : γ)
    (h : key ∈ l) : ∃ i, pyIndex l key = some i := by
  induction l with
  | nil => cases h
  | cons x rest ih =>
      by_cases hx : x = key
      · exact ⟨0, by simp [pyIndex, hx]⟩
      · have hm : key ∈ rest := by
          rcases List.mem_cons.mp h with he | hm
          · exact absurd he.symm hx
          · exact hm
        obtain ⟨j, hj⟩ := ih hm
        exact ⟨j + 1, by simp [pyIndex, hx, hj]⟩

theorem pySetItem_self {γ : Type} :
    ∀ (l : List γ) (i : Nat) (a : γ), l.get? i = some a → pySetItem l i a = l := by
  intro l
  induction l with
  | nil => intro i a h; simp at h
  | cons x rest ih =>
      intro i a h
      cases i with
      | zero =>
          rw [List.get?_cons_zero] at h
          injection h with h
          simp [pySetItem, h]
      | succ k =>
          rw [List.get?_cons_succ] at h
          simp [pySetItem, ih k a h]

theorem mem_pySetItem {γ : Type} :
    ∀ {l : List γ} {i : Nat} {a y : γ}, y ∈ pySetItem l i a → y = a ∨ y ∈ l := by
  intro l
  induction l with
  | nil => intro i a y h; cases h
  | cons x rest ih =>
      intro i a y h
      cases i with
      | zero =>
          rcases List.mem_cons.mp h with he | hm
          · exact Or.inl he
          · exact Or.inr (List.mem_cons_of_mem x hm)
      | succ k =>
          rcases List.mem_cons.mp h with he | hm
          · exact Or.inr (he ▸ List.mem_cons_self x rest)
          · rcases ih hm with h1 | h2
            · exact Or.inl h1
            · exact Or.inr (List.mem_cons_of_mem x h2)

theorem noDupB_get?_inj {γ : Type} [DecidableEq γ] :
    ∀ (l : List γ), noDupB l = true →
      ∀ i j a, l.get? i = some a → l.get? j = some a → i = j := by
  intro l
  induction l with
  | nil => intro _ i j a hi; simp at hi
  | cons x rest ih =>
      intro h i j a hi hj
      simp only [noDupB, Bool.and_eq_true, decide_eq_true_eq] at h
      cases i with
      | zero =>
          cases j with
          | zero => rfl
          | succ k =>
              rw [List.get?_cons_zero] at hi
              rw [List.get?_cons_succ] at hj
              injection hi with hi
              have hmem := List.get?_mem hj
              rw [← hi] at hmem
              exact absurd hmem h.1
      | succ k =>
          cases j with
          | zero =>
              rw [List.get?_cons_zero] at hj
              rw [List.get?_cons_succ] at hi
              injection hj with hj
              have hmem := List.get?_mem hi
              rw [← hj] at hmem
              exact absurd hmem h.1
          | succ k' =>
              rw [List.get?_cons_succ] at hi hj
              exact congrArg Nat.succ (ih h.2 k k' a hi hj)

theorem noDupB_pySetItem {γ : Type} [DecidableEq γ] :
    ∀ (l : List γ) (i : Nat) (a : γ), noDupB l = true →
      (a ∉ l ∨ l.get? i = some a) → noDupB (pySetItem l i a) = true := by
  intro l
  induction l with
  | nil => intro i a _ _; rfl
  | cons x rest ih =>
      intro i a h ha
      rcases ha with ha | ha
      · simp only [noDupB, Bool.and_eq_true, decide_eq_true_eq] at h
        cases i with
        | zero =>
            simp only [pySetItem, noDupB, Bool.and_eq_true, decide_eq_true_eq]
            exact ⟨fun hm => ha (List.mem_cons_of_mem x hm), h.2⟩
        | succ k =>
            simp only [pySetItem, noDupB, Bool.and_eq_true, decide_eq_true_eq]
            constructor
            · intro hm
              rcases mem_pySetItem hm with he | hm'
              · exact ha (he ▸ List.mem_cons_self x rest)
              · exact h.1 hm'
            · exact ih k a h.2 (Or.inl fun hm => ha (List.mem_cons_of_mem x hm))
      · rw [pySetItem_self _ i a ha]
        exact h

/-! ### Consistency of the rename state, for C7 -/

theorem consistentB_loc_congr :
    ∀ (ns : List Name) (ls : List Nat) (loc loc' : List (Name × Nat)),
      consistentB ns ls loc = true →
      (∀ nm ∈ ns, odLookup loc' nm = odLookup loc nm) →
      consistentB ns ls loc' = true := by
  intro ns
  induction ns with
  | nil =>
      intro ls loc loc' h _
      cases ls with
      | nil => rfl
      | cons a b => simp [consistentB] at h
  | cons nm ns' ih =>
      intro ls loc loc' h hpres
      cases ls with
      | nil => simp [consistentB] at h
      | cons ly ls' =>
          simp only [consistentB, Bool.and_eq_true, beq_iff_eq] at h ⊢
          refine ⟨?_, ih ls' loc loc' h.2 (fun y hy => hpres y (List.mem_cons_of_mem nm hy))⟩
          rw [hpres nm (List.mem_cons_self nm ns')]
          exact h.1

theorem consistentB_get? :
    ∀ (ns : List Name) (ls : List Nat) (loc : List (Name × Nat)),
      consistentB ns ls loc = true →
      ∀ i nm, ns.get? i = some nm →
        ∃ ly, ls.get? i = some ly ∧ odLookup loc nm = some ly := by
  intro ns
  induction ns with
  | nil => intro ls loc _ i nm hi; simp at hi
  | cons nm0 ns' ih =>
      intro ls loc h i nm hi
      cases ls with
      | nil => simp [consistentB] at h
      | cons ly0 ls' =>
          simp only [consistentB, Bool.and_eq_true, beq_iff_eq] at h
          cases i with
          | zero =>
              rw [List.get?_cons_zero] at hi
              injection hi with hi
              exact ⟨ly0, rfl, hi ▸ h.1⟩
          | succ k =>
              rw [List.get?_cons_succ] at hi
              obtain ⟨ly, h1, h2⟩ := ih ls' loc h.2 k nm hi
              exact ⟨ly, by rw [List.get?_cons_succ]; exact h1, h2⟩

theorem consistentB_pySetItem :
    ∀ (ns : List Name) (ls : List Nat) (loc loc' : List (Name × Nat)) (idx : Nat)
      (o n : Name) (v : Nat),
      consistentB ns ls loc = true →
      ns.get? idx = some o →
      ls.get? idx = some v →
      odLookup loc' n = some v →
      (∀ j nm, ns.get? j = some nm → j ≠ idx → odLookup loc' nm = odLookup loc nm) →
      consistentB (pySetItem ns idx n) ls loc' = true := by
  intro ns
  induction ns with
  | nil => intro ls loc loc' idx o n v _ hidx; simp at hidx
  | cons nm0 ns' ih =>
      intro ls loc loc' idx o n v hcons hidx hv hlook hother
      cases ls with
      | nil => simp [consistentB] at hcons
      | cons ly0 ls' =>
          simp only [consistentB, Bool.and_eq_true, beq_iff_eq] at hcons
          cases idx with
          | zero =>
              rw [List.get?_cons_zero] at hv
              injection hv with hv
              simp only [pySetItem, consistentB, Bool.and_eq_true, beq_iff_eq]
              constructor
              · rw [hlook, hv]
              · apply consistentB_loc_congr ns' ls' loc loc' hcons.2
                intro y hy
                obtain ⟨⟨j, hjlt⟩, hget⟩ := List.mem_iff_get.mp hy
                have hgj : ns'.get? j = some y := by rw [List.get?_eq_get hjlt, hget]
                exact hother (j + 1) y (by rw [List.get?_cons_succ]; exact hgj)
                  (Nat.succ_ne_zero j)
          | succ k =>
              rw [List.get?_cons_succ] at hidx hv
              simp only [pySetItem, consistentB, Bool.and_eq_true, beq_iff_eq]
              constructor
              · rw [hother 0 nm0 List.get?_cons_zero (Nat.succ_ne_zero k).symm]
                exact hcons.1
              · exact ih ls' loc loc' k o n v hcons.2 hidx hv hlook
                  (fun j y hj hne =>
                    hother (j + 1) y (by rw [List.get?_cons_succ]; exact hj)
                      (fun hc => hne (Nat.succ_injective hc)))

/-- Applying one rename pair preserves lookup consistency when the old name
is present and the new name collides with no name still present. -/
theorem renameStep_preserves (st : StackNames) (o n : Name)
    (hnd : noDupB st.names = true)
    (hcons : consistentB st.names st.layers st.loc = true)
    (ho : o ∈ st.names) (hn : n = o ∨ n ∉ st.names) :
    ∃ st', renameStep st o n = Except.ok st' ∧
      noDupB st'.names = true ∧
      consistentB st'.names st'.layers st'.loc = true ∧
      st'.layers = st.layers := by
  obtain ⟨idx, hidx⟩ := pyIndex_isSome_of_mem st.names o ho
  have hgo : st.names.get? idx = some o := pyIndex_get? st.names o idx hidx
  obtain ⟨v, hv, hlo⟩ := consistentB_get? st.names st.layers st.loc hcons idx o hgo
  refine ⟨⟨pySetItem st.names idx n, st.layers, odSet (odPop st.loc o) n v⟩, ?_, ?_, ?_, rfl⟩
  · unfold renameStep
    rw [hlo, hidx]
  · apply noDupB_pySetItem st.names idx n hnd
    rcases hn with rfl | hn
    · exact Or.inr hgo
    · exact Or.inl hn
  · apply consistentB_pySetItem st.names st.layers st.loc _ idx o n v hcons hgo hv
      (odLookup_odSet_self _ n v)
    intro j nm hj hne
    have hnmo : nm ≠ o := by
      intro he
      exact hne (noDupB_get?_inj st.names hnd j idx nm hj (he ▸ hgo))
    have hnmn : nm ≠ n := by
      rcases hn with rfl | hn
      · exact hnmo
      · intro he
        exact hn (he ▸ List.get?_mem hj)
    rw [odLookup_odSet_ne _ n nm v hnmn, odLookup_odPop_ne _ o nm hnmo]

/-- C7 (counterexample): on a stack with layers `a` and `b`, the mapping
`{a: b, b: c}` — whose new name `b` collides with the not-yet-renamed old
name `b` — makes `loc[b] = loc.pop(a)` overwrite layer `b`'s entry, so after
the call `loc` holds a single entry and the name `b` no longer resolves:
the name-to-handle lookup is inconsistent. -/
theorem rename_collision_inconsistent :
    consistentNamingB stAB = true ∧
    rename stAB [("a".toList, "b".toList), ("b".toList, "c".toList)] =
      Except.ok ⟨["c".toList, "b".toList], [0, 1], [("c".toList, 0)]⟩ ∧
    consistentNamingB ⟨["c".toList, "b".toList], [0, 1], [("c".toList, 0)]⟩ = false :=
  ⟨by decide, by decide, by decide⟩

/-- C7 (amended): `rename` applies the old-to-new pairs sequentially in the
given order, and the name-to-handle lookup `loc` stays consistent provided
each pair's new name does not collide with a name still present when that
pair is applied; a collision with a not-yet-renamed old name instead
overwrites that entry (see the counterexample). -/
theorem rename_sequential_consistent :
    ∀ (m : List (Name × Name)) (st : StackNames),
      noDupB st.names = true → consistentNamingB st = true → renameOK st m = true →
      ∃ st', rename st m = Except.ok st' ∧ consistentNamingB st' = true ∧
        noDupB st'.names = true ∧ st'.layers = st.layers := by
  intro m
  induction m with
  | nil => intro st h1 h2 _; exact ⟨st, rfl, h2, h1, rfl⟩
  | cons p rest ih =>
      obtain ⟨o, n⟩ := p
      intro st h1 h2 hok
      rw [renameOK] at hok
      simp only [Bool.and_eq_true, Bool.or_eq_true, decide_eq_true_eq] at hok
      obtain ⟨⟨ho, hn⟩, hmatch⟩ := hok
      obtain ⟨st'', hstep, hnd'', hcons'', hlay''⟩ := renameStep_preserves st o n h1 h2 ho hn
      rw [hstep] at hmatch
      obtain ⟨stf, hrn, hc, hd, hl⟩ := ih st'' hnd'' hcons'' hmatch
      refine ⟨stf, ?_, hc, hd, by rw [hl, hlay'']⟩
      rw [rename, hstep]
      exact hrn

/-- Witness for C7 (amended): renaming `a` to the fresh name `c` on the
two-layer stack keeps the lookup consistent. -/
theorem rename_sequential_witness :
    ∃ st', rename stAB [("a".toList, "c".toList)] = Except.ok st' ∧
      consistentNamingB st' = true ∧ noDupB st'.names = true ∧
      st'.layers = stAB.layers :=
  rename_sequential_consistent [("a".toList, "c".toList)] stAB
    (by decide) (by decide) (by decide)

end Pyspatialml
